import Mathlib

/-!
# Icon-grounding engine: a shallow embedding and its verification

This file embeds the decision logic of the desktop-automation icon-grounding
repository (the grounding engine in src/grounding/) into Lean and proves the
specification claims about it.

Modelling conventions:
* Confidences, thresholds and raw bounding-box coordinates are rationals
  (the Python code uses floats; none of the verified properties depend on
  floating-point rounding).
* Pixel coordinates are integers, as in the source (PIL sizes, int() centers).
* Each detection primitive (EasyOCR reader, BotCity matcher, Florence-2
  model) is an external collaborator; a locate call observes one primitive
  response, which we pass in explicitly.  A response is either a payload or
  a raised exception, modelled with an explicit error constructor.
* Python truthiness matters in three places and is modelled exactly:
  a tuple of coordinates is always truthy (even (0, 0)), None is falsy, and
  a float 0.0 is falsy (the threshold-override substitution in
  TemplateGrounding.locate).
-/

namespace IconGrounding

/-- A captured screenshot; only its pixel size is consulted by the engine
(PIL Image.size). -/
structure Screenshot where
  width : ℤ
  height : ℤ
deriving DecidableEq

/-- An (x, y) pixel coordinate, as returned by every locate method. -/
abbrev Point := ℤ × ℤ

/-- Embedding of BaseGrounding.validate_result: true iff the coordinates are
present and lie strictly inside the screenshot rectangle
(0 <= x < width and 0 <= y < height). -/
def validate_result (coords : Option Point) (shot : Screenshot) : Bool :=
  match coords with
  | none => false
  | some (x, y) => decide (0 ≤ x ∧ x < shot.width ∧ 0 ≤ y ∧ y < shot.height)

/-- One observed call to a strategy from the engine loop: the strategy either
raised an exception or returned an optional point. -/
inductive StratCall where
  | raises (msg : String)
  | returns (coords : Option Point)
deriving DecidableEq

/-- The acceptance test of the engine loop body: the strategy returned
coordinates (Python truthiness: any tuple is truthy, None is falsy) and
validate_result holds for them. -/
def acceptsB (shot : Screenshot) (c : StratCall) : Bool :=
  match c with
  | .raises _ => false
  | .returns coords => coords.isSome && validate_result coords shot

/-- What one engine locate call produced: the returned coordinates, how many
strategies were invoked, and the zero-based index of the accepted strategy
(if any). -/
structure EngineOutcome where
  result : Option Point
  tried : ℕ
  successIdx : Option ℕ
deriving DecidableEq

/-- Embedding of MultiStrategyGrounding.locate: try each strategy in
registration order; a raised exception is caught and the loop continues; the
first strategy whose returned coordinates pass validate_result is accepted
immediately and its point returned; if the list is exhausted the call returns
None (it never raises). -/
def msLocate (shot : Screenshot) : List StratCall → EngineOutcome
  | [] => ⟨none, 0, none⟩
  | c :: rest =>
    match c with
    | .raises _ =>
      let o := msLocate shot rest
      ⟨o.result, o.tried + 1, o.successIdx.map (· + 1)⟩
    | .returns coords =>
      if coords.isSome && validate_result coords shot then
        ⟨coords, 1, some 0⟩
      else
        let o := msLocate shot rest
        ⟨o.result, o.tried + 1, o.successIdx.map (· + 1)⟩

/-- Embedding of the engine state update around one locate call: the field
last_successful_strategy is assigned only inside the success branch of the
loop; on a call with no accepted result it keeps its previous value.  Returns
(new record, returned coordinates). -/
def locate_with_record (shot : Screenshot) (calls : List StratCall)
    (last_successful_strategy : Option ℕ) : Option ℕ × Option Point :=
  let o := msLocate shot calls
  (match o.successIdx with
   | some i => some i
   | none => last_successful_strategy,
   o.result)

/-- Helper: when no strategy call is accepted, the engine tries every
strategy, returns None and records no success. -/
theorem msLocate_all_fail (shot : Screenshot) :
    ∀ calls : List StratCall, (∀ c ∈ calls, acceptsB shot c = false) →
      msLocate shot calls = ⟨none, calls.length, none⟩ := by
  intro calls
  induction calls with
  | nil => intro _; rfl
  | cons c rest ih =>
    intro h
    have hc := h c (List.mem_cons_self c rest)
    have hrest := ih fun d hd => h d (List.mem_cons_of_mem c hd)
    cases c with
    | raises msg => simp [msLocate, hrest]
    | returns coords =>
      have hcb : (coords.isSome && validate_result coords shot) = false := by
        simpa [acceptsB] using hc
      simp [msLocate, hcb, hrest]

/-- Helper: the first accepted strategy call wins; every strategy before it is
tried, none after it is. -/
theorem msLocate_first_success (shot : Screenshot) (pre post : List StratCall)
    (p : Point) (hpre : ∀ c ∈ pre, acceptsB shot c = false)
    (hval : validate_result (some p) shot = true) :
    msLocate shot (pre ++ StratCall.returns (some p) :: post) =
      ⟨some p, pre.length + 1, some pre.length⟩ := by
  induction pre with
  | nil => simp [msLocate, hval]
  | cons c rest ih =>
    have hc := hpre c (List.mem_cons_self c rest)
    have hrest := ih fun d hd => hpre d (List.mem_cons_of_mem c hd)
    cases c with
    | raises msg => simp [msLocate, hrest]
    | returns coords =>
      have hcb : (coords.isSome && validate_result coords shot) = false := by
        simpa [acceptsB] using hc
      simp [msLocate, hcb, hrest]

/-- Helper: any point returned by the engine passed validate_result. -/
theorem msLocate_result_validated (shot : Screenshot) :
    ∀ (calls : List StratCall) (p : Point),
      (msLocate shot calls).result = some p →
        validate_result (some p) shot = true := by
  intro calls
  induction calls with
  | nil => intro p hp; simp [msLocate] at hp
  | cons c rest ih =>
    intro p hp
    cases c with
    | raises msg =>
      exact ih p (by simpa [msLocate] using hp)
    | returns coords =>
      by_cases hacc : (coords.isSome && validate_result coords shot) = true
      · have hres : coords = some p := by simpa [msLocate, hacc] using hp
        have hv := (Bool.and_eq_true _ _).mp hacc
        simpa [hres] using hv.2
      · have hacc2 : (coords.isSome && validate_result coords shot) = false := by
          simpa using hacc
        exact ih p (by simpa [msLocate, hacc2] using hp)

/-- C1: validate_result is true on a point exactly when the point lies
strictly inside the screenshot rectangle, and every point returned by the
multi-strategy engine passed validate_result, hence satisfies
0 <= x < width and 0 <= y < height. -/
theorem engine_bounds_invariant :
    (∀ (x y : ℤ) (shot : Screenshot),
        validate_result (some (x, y)) shot = true ↔
          0 ≤ x ∧ x < shot.width ∧ 0 ≤ y ∧ y < shot.height) ∧
    (∀ (shot : Screenshot) (calls : List StratCall) (p : Point),
        (msLocate shot calls).result = some p →
          validate_result (some p) shot = true ∧
          0 ≤ p.1 ∧ p.1 < shot.width ∧ 0 ≤ p.2 ∧ p.2 < shot.height) := by
  constructor
  · intro x y shot
    simp [validate_result]
  · intro shot calls p hp
    have hv := msLocate_result_validated shot calls p hp
    refine ⟨hv, ?_⟩
    obtain ⟨x, y⟩ := p
    simpa [validate_result] using hv

/-- Witness for C1 on a concrete run: a 10 x 10 screenshot and a single
strategy returning (3, 4). -/
theorem engine_bounds_invariant_witness :
    validate_result (some ((3 : ℤ), (4 : ℤ))) ⟨10, 10⟩ = true ∧
    0 ≤ (3 : ℤ) ∧ (3 : ℤ) < (10 : ℤ) ∧ 0 ≤ (4 : ℤ) ∧ (4 : ℤ) < (10 : ℤ) :=
  engine_bounds_invariant.2 ⟨10, 10⟩ [StratCall.returns (some (3, 4))] (3, 4)
    (by decide)

/-- C2: the engine iterates strategies strictly in registration order and
accepts the first one whose returned point passes validate_result: it returns
that point, has invoked exactly the strategies up to and including it (tried =
position), and ignores every later strategy, so no cross-strategy confidence
comparison can occur; in particular when strategies 1 and 2 would both match,
the point of strategy 1 is returned. -/
theorem engine_first_success_wins (shot : Screenshot) (pre post : List StratCall)
    (p : Point) (hpre : ∀ c ∈ pre, acceptsB shot c = false)
    (hval : validate_result (some p) shot = true) :
    msLocate shot (pre ++ StratCall.returns (some p) :: post) =
      ⟨some p, pre.length + 1, some pre.length⟩ :=
  msLocate_first_success shot pre post p hpre hval

/-- Witness for C2: strategies 2 and 3 would both return valid points, but the
engine returns the point of strategy 2, after trying exactly 2 strategies. -/
theorem engine_first_success_wins_witness :
    msLocate ⟨10, 10⟩
        ([StratCall.returns none] ++
          StratCall.returns (some (1, 2)) :: [StratCall.returns (some (5, 5))]) =
      ⟨some (1, 2), [StratCall.returns none].length + 1,
        some [StratCall.returns none].length⟩ :=
  engine_first_success_wins ⟨10, 10⟩ [StratCall.returns none]
    [StratCall.returns (some (5, 5))] (1, 2) (by decide) (by decide)

/-- C5: a strategy that raises is skipped and does not change the returned
result of the remaining strategies (so an always-raising strategy cannot
prevent a later one from succeeding), and when every strategy call fails to be
accepted the engine returns None; the engine itself never raises, which the
embedding reflects by msLocate being a total function into EngineOutcome. -/
theorem engine_exception_isolation :
    (∀ (shot : Screenshot) (msg : String) (rest : List StratCall),
        (msLocate shot (StratCall.raises msg :: rest)).result =
          (msLocate shot rest).result) ∧
    (∀ (shot : Screenshot) (calls : List StratCall),
        (∀ c ∈ calls, acceptsB shot c = false) →
          (msLocate shot calls).result = none) := by
  constructor
  · intro shot msg rest
    simp [msLocate]
  · intro shot calls h
    simp [msLocate_all_fail shot calls h]

/-- Witness for C5: a raising strategy followed by a succeeding one still
yields the point of the second, and a run where all strategies fail yields
None. -/
theorem engine_exception_isolation_witness :
    (msLocate ⟨8, 8⟩ [StratCall.raises "boom", StratCall.returns (some (2, 2))]).result =
      (msLocate ⟨8, 8⟩ [StratCall.returns (some (2, 2))]).result ∧
    (msLocate ⟨8, 8⟩ [StratCall.raises "boom", StratCall.returns none]).result = none :=
  ⟨engine_exception_isolation.1 ⟨8, 8⟩ "boom" [StratCall.returns (some (2, 2))],
   engine_exception_isolation.2 ⟨8, 8⟩
     [StratCall.raises "boom", StratCall.returns none] (by decide)⟩

/-- C9 counterexample: the record of the last successful strategy is not reset
at the start of a locate call.  Concrete input: a first call whose only
strategy succeeds at (1, 1) on a 10 x 10 screenshot (the record becomes
strategy 0), then a second call in which no strategy produces an accepted
result; the second call returns None yet the record still names strategy 0
from the earlier call, contradicting the claim. -/
theorem engine_record_counterexample :
    (locate_with_record ⟨10, 10⟩ [StratCall.returns none]
        (locate_with_record ⟨10, 10⟩ [StratCall.returns (some (1, 1))] none).1).2 = none ∧
    (locate_with_record ⟨10, 10⟩ [StratCall.returns none]
        (locate_with_record ⟨10, 10⟩ [StratCall.returns (some (1, 1))] none).1).1 = some 0 ∧
    some 0 ≠ (none : Option ℕ) := by
  exact ⟨rfl, rfl, by decide⟩

/-- C9 (amended): the record of the last successful strategy is updated only
by a locate call in which some strategy is accepted (it then names the first
accepted strategy of that call); a call in which no strategy is accepted
returns None and leaves the record unchanged, so after a failed call it can
still name a strategy that succeeded in an earlier call. -/
theorem engine_record_reflects_last_success (shot : Screenshot)
    (last : Option ℕ) :
    (∀ calls : List StratCall, (∀ c ∈ calls, acceptsB shot c = false) →
        locate_with_record shot calls last = (last, none)) ∧
    (∀ (pre post : List StratCall) (p : Point),
        (∀ c ∈ pre, acceptsB shot c = false) →
        validate_result (some p) shot = true →
        locate_with_record shot (pre ++ StratCall.returns (some p) :: post) last =
          (some pre.length, some p)) := by
  constructor
  · intro calls h
    simp [locate_with_record, msLocate_all_fail shot calls h]
  · intro pre post p hpre hval
    simp [locate_with_record, msLocate_first_success shot pre post p hpre hval]

/-- Witness for C9 (amended): on a concrete failed call the record keeps its
previous value (strategy 3), and on a concrete successful call it names the
accepted strategy. -/
theorem engine_record_reflects_last_success_witness :
    locate_with_record ⟨10, 10⟩ [StratCall.returns none] (some 3) =
      (some 3, none) ∧
    locate_with_record ⟨10, 10⟩
        ([StratCall.raises "e"] ++ StratCall.returns (some (2, 3)) :: []) (some 3) =
      (some [StratCall.raises "e"].length, some (2, 3)) :=
  ⟨(engine_record_reflects_last_success ⟨10, 10⟩ (some 3)).1
      [StratCall.returns none] (by decide),
   (engine_record_reflects_last_success ⟨10, 10⟩ (some 3)).2
      [StratCall.raises "e"] [] (2, 3) (by decide) (by decide)⟩

/-! ## Python string helpers shared by the OCR strategies

Python strings are modelled as lists of characters; strip, lower and the
substring test are given structurally so that concrete runs evaluate in the
kernel.  Case folding is ASCII case folding, which is what the verified
claims exercise. -/

/-- ASCII lowering of one character (models Python str.lower on the
characters the claims exercise). -/
def lower_char (c : Char) : Char :=
  if 'A' ≤ c ∧ c ≤ 'Z' then Char.ofNat (c.toNat + 32) else c

/-- Whitespace test used by the strip model (models Python str.strip,
which removes leading and trailing whitespace). -/
def is_space_char (c : Char) : Bool :=
  c = ' ' || c = '\t' || c = '\n' || c = '\r'

/-- Python str.strip: drop whitespace from both ends. -/
def strip_chars (s : List Char) : List Char :=
  ((s.dropWhile is_space_char).reverse.dropWhile is_space_char).reverse

/-- Python str.lower. -/
def lower_chars (s : List Char) : List Char := s.map lower_char

/-- Does the first list start with the second? -/
def starts_with : List Char → List Char → Bool
  | _, [] => true
  | [], _ :: _ => false
  | a :: hay, b :: needle => a = b && starts_with hay needle

/-- Python substring test: contains_sub hay needle is true iff needle occurs
contiguously inside hay (the empty needle always occurs). -/
def contains_sub : List Char → List Char → Bool
  | [], needle => needle.isEmpty
  | a :: hay, needle => starts_with (a :: hay) needle || contains_sub hay needle

/-! ## Template strategy (TemplateGrounding, AdaptiveTemplateGrounding) -/

/-- The element reported by the BotCity matcher after a successful find:
an axis-aligned box plus an optional score attribute (the source reads it
with getattr(element, score, match_threshold)). -/
structure MatchedElement where
  left : ℤ
  top : ℤ
  width : ℤ
  height : ℤ
  score : Option ℚ
deriving DecidableEq

/-- One observed response of the BotCity find primitive at a given matching
threshold: a raised exception, no match, or a matched element. -/
inductive FindOutcome where
  | raises (msg : String)
  | notFound
  | found (element : MatchedElement)
deriving DecidableEq

/-- Python `threshold or self.threshold`: the right operand is substituted
when the left is None or the float 0.0 (both falsy), not only when it is
absent. -/
def py_or_threshold (threshold : Option ℚ) (self_threshold : ℚ) : ℚ :=
  match threshold with
  | none => self_threshold
  | some t => if t = 0 then self_threshold else t

/-- config.TEMPLATE_MATCH_THRESHOLD. -/
def TEMPLATE_MATCH_THRESHOLD : ℚ := 7 / 10

/-- The threshold stored by TemplateGrounding.__init__:
`threshold or config.TEMPLATE_MATCH_THRESHOLD`. -/
def template_init_threshold (threshold : Option ℚ) : ℚ :=
  py_or_threshold threshold TEMPLATE_MATCH_THRESHOLD

/-- Embedding of TemplateGrounding.locate over one observed response of the
matcher.  The effective threshold is `threshold or self.threshold`; a raised
exception is caught and recorded as confidence -1 with no point; a clean miss
records confidence 0; a match returns the box center (Python // is floor
division) and records the element score, or the effective threshold when the
element exposes no score.  Returns (new last_confidence, result). -/
def template_locate (self_threshold : ℚ) (find : ℚ → FindOutcome)
    (threshold : Option ℚ) : ℚ × Option Point :=
  let match_threshold := py_or_threshold threshold self_threshold
  match find match_threshold with
  | .raises _ => (-1, none)
  | .notFound => (0, none)
  | .found e =>
    (e.score.getD match_threshold,
     some (e.left + Int.fdiv e.width 2, e.top + Int.fdiv e.height 2))

/-- The ladder stored by AdaptiveTemplateGrounding.__init__:
`thresholds or [0.9, 0.8, 0.7, 0.6, 0.5]` (an empty list is falsy). -/
def adaptive_init_thresholds (thresholds : Option (List ℚ)) : List ℚ :=
  match thresholds with
  | none => [9/10, 8/10, 7/10, 6/10, 5/10]
  | some l => if l = [] then [9/10, 8/10, 7/10, 6/10, 5/10] else l

/-- Embedding of AdaptiveTemplateGrounding.locate: walk the threshold ladder,
calling the base template locate once per rung with that threshold as
override; return the first rung that yields coordinates.  Returns
(last_confidence after the call, result, number of base attempts made). -/
def adaptive_locate (self_threshold : ℚ) (find : ℚ → FindOutcome)
    (last_confidence : ℚ) : List ℚ → ℚ × Option Point × ℕ
  | [] => (last_confidence, none, 0)
  | t :: rest =>
    let r := template_locate self_threshold find (some t)
    match r.2 with
    | some p => (r.1, some p, 1)
    | none =>
      let o := adaptive_locate self_threshold find r.1 rest
      (o.1, o.2.1, o.2.2 + 1)

/-- Does the base template strategy produce a match at rung t? -/
def rung_matches (self_threshold : ℚ) (find : ℚ → FindOutcome) (t : ℚ) : Bool :=
  (template_locate self_threshold find (some t)).2.isSome

/-- C10: a per-call threshold override equal to 0 is silently ignored: the
locate call behaves exactly as with no override, the matcher is invoked with
the previously configured threshold (the substitution happens whenever the
override is absent-or-zero), and likewise a construction-time threshold of 0
is replaced by the configured default. -/
theorem template_zero_threshold_ignored :
    (∀ (self_threshold : ℚ) (find : ℚ → FindOutcome),
        template_locate self_threshold find (some 0) =
          template_locate self_threshold find none) ∧
    (∀ self_threshold : ℚ,
        py_or_threshold (some 0) self_threshold = self_threshold) ∧
    template_init_threshold (some 0) = TEMPLATE_MATCH_THRESHOLD := by
  refine ⟨fun s f => ?_, fun s => ?_, ?_⟩ <;>
    simp [template_locate, py_or_threshold, template_init_threshold]

/-- C6 counterexample: with the one-rung ladder [1] and a matcher that raises,
no rung matches and adaptive locate returns no point, yet the confidence is
-1, not 0 as the claim states (the base call at the final rung recorded the
detector error). -/
theorem adaptive_no_match_confidence_counterexample :
    (adaptive_locate 1 (fun _ => FindOutcome.raises "matcher crashed") (-1) [1]).2.1
        = none ∧
    (adaptive_locate 1 (fun _ => FindOutcome.raises "matcher crashed") (-1) [1]).1
        = -1 ∧
    (-1 : ℚ) ≠ 0 := by
  refine ⟨rfl, rfl, by norm_num⟩

/-- Helper: a rung that does not match leaves the base call with no
coordinates. -/
theorem rung_not_matches_eq_none (self_threshold : ℚ) (find : ℚ → FindOutcome)
    (t : ℚ) (h : rung_matches self_threshold find t = false) :
    (template_locate self_threshold find (some t)).2 = none := by
  cases hv : (template_locate self_threshold find (some t)).2 with
  | none => rfl
  | some p => rw [rung_matches, hv] at h; simp at h

/-- Helper: stepping the adaptive ladder past a non-matching rung. -/
theorem adaptive_locate_step_fail (self_threshold : ℚ) (find : ℚ → FindOutcome)
    (last t : ℚ) (rest : List ℚ)
    (h : rung_matches self_threshold find t = false) :
    adaptive_locate self_threshold find last (t :: rest) =
      ((adaptive_locate self_threshold find
          (template_locate self_threshold find (some t)).1 rest).1,
       (adaptive_locate self_threshold find
          (template_locate self_threshold find (some t)).1 rest).2.1,
       (adaptive_locate self_threshold find
          (template_locate self_threshold find (some t)).1 rest).2.2 + 1) := by
  have hn := rung_not_matches_eq_none self_threshold find t h
  simp [adaptive_locate, hn]

/-- C6 (amended): the adaptive strategy tries the ladder strictly in order,
one base template attempt per rung, and halts at the first rung whose base
call yields a point: it returns that point and confidence after exactly
(position of the rung) attempts; if no rung matches, it returns no point
after one attempt per rung, and the confidence is the one recorded by the
final rung of the base call — 0 on a clean miss, but -1 when that rung's
primitive raised. -/
theorem adaptive_ladder_monotonic_halt (self_threshold : ℚ)
    (find : ℚ → FindOutcome) :
    (∀ (last : ℚ) (pre post : List ℚ) (t : ℚ),
        (∀ s ∈ pre, rung_matches self_threshold find s = false) →
        rung_matches self_threshold find t = true →
        adaptive_locate self_threshold find last (pre ++ t :: post) =
          ((template_locate self_threshold find (some t)).1,
           (template_locate self_threshold find (some t)).2,
           pre.length + 1)) ∧
    (∀ (last : ℚ) (pre : List ℚ) (t : ℚ),
        (∀ s ∈ pre ++ [t], rung_matches self_threshold find s = false) →
        adaptive_locate self_threshold find last (pre ++ [t]) =
          ((template_locate self_threshold find (some t)).1, none,
           pre.length + 1)) := by
  constructor
  · intro last pre
    induction pre generalizing last with
    | nil =>
      intro post t _ ht
      obtain ⟨p, hp⟩ := Option.isSome_iff_exists.mp (by simpa [rung_matches] using ht)
      simp [adaptive_locate, hp]
    | cons s pre ih =>
      intro post t hpre ht
      have hs := hpre s (List.mem_cons_self s pre)
      have hrest := ih ((template_locate self_threshold find (some s)).1)
        post t (fun u hu => hpre u (List.mem_cons_of_mem s hu)) ht
      rw [List.cons_append,
        adaptive_locate_step_fail self_threshold find last s _ hs, hrest]
      simp
  · intro last pre
    induction pre generalizing last with
    | nil =>
      intro t h
      have ht := h t (List.mem_cons_self t [])
      rw [List.nil_append,
        adaptive_locate_step_fail self_threshold find last t [] ht]
      simp [adaptive_locate]
    | cons s pre ih =>
      intro t h
      have hs := h s (List.mem_cons_self s _)
      have hrest := ih ((template_locate self_threshold find (some s)).1) t
        (fun u hu => h u (List.mem_cons_of_mem s hu))
      rw [List.cons_append,
        adaptive_locate_step_fail self_threshold find last s _ hs, hrest]
      simp

/-- A synthetic matcher for the C6 witness: succeeds only at thresholds at or
below 0.7, mirroring the acceptance example of the spec. -/
def lenient_find (t : ℚ) : FindOutcome :=
  if t ≤ 7/10 then FindOutcome.found ⟨10, 20, 4, 6, some (3/4)⟩
  else FindOutcome.notFound

/-- Witness for C6 (amended): ladder [0.9, 0.8, 0.7] with a matcher that only
succeeds at 0.7 halts after exactly 3 attempts with the point of the third
rung. -/
theorem adaptive_ladder_monotonic_halt_witness :
    adaptive_locate (9/10) lenient_find (-1) ([9/10, 8/10] ++ (7/10) :: []) =
      ((template_locate (9/10) lenient_find (some (7/10))).1,
       (template_locate (9/10) lenient_find (some (7/10))).2,
       [(9:ℚ)/10, 8/10].length + 1) :=
  (adaptive_ladder_monotonic_halt (9/10) lenient_find).1 (-1) [9/10, 8/10] []
    (7/10)
    (by norm_num [rung_matches, template_locate, py_or_threshold, lenient_find])
    (by norm_num [rung_matches, template_locate, py_or_threshold, lenient_find])

/-! ## OCR strategy (OCRGrounding) -/

/-- Python int() on a rational: truncation toward zero (floor for nonnegative
values, ceiling for negative ones). -/
def py_int (q : ℚ) : ℤ := if 0 ≤ q then ⌊q⌋ else ⌈q⌉

/-- An EasyOCR bounding box: the four corner points of the detected text
region (not necessarily axis-aligned). -/
structure OCRBox where
  p1 : ℚ × ℚ
  p2 : ℚ × ℚ
  p3 : ℚ × ℚ
  p4 : ℚ × ℚ
deriving DecidableEq

/-- The point computed by OCRGrounding.locate for a matched detection: the
integer-truncated mean of the four corner x-coordinates and of the four
corner y-coordinates. -/
def OCRBox.center (b : OCRBox) : Point :=
  (py_int ((b.p1.1 + b.p2.1 + b.p3.1 + b.p4.1) / 4),
   py_int ((b.p1.2 + b.p2.2 + b.p3.2 + b.p4.2) / 4))

/-- One raw EasyOCR detection: bounding box, detected text, raw confidence. -/
structure Detection where
  bbox : OCRBox
  text : List Char
  conf : ℚ
deriving DecidableEq

/-- The text comparison of OCRGrounding.locate for one detection: strip both
texts, lower them unless case-sensitive matching was requested, then require
equality in exact mode or that the target occurs as a substring of the
detected text in partial mode (Python `search_text in detected_text`). -/
def text_match (target : List Char) (case_sensitive exact_match : Bool)
    (d : Detection) : Bool :=
  let detected_text := if case_sensitive then strip_chars d.text
                       else lower_chars (strip_chars d.text)
  let search_text := if case_sensitive then strip_chars target
                     else lower_chars (strip_chars target)
  if exact_match then decide (detected_text = search_text)
  else contains_sub detected_text search_text

/-- The candidate test of OCRGrounding.locate for one detection: the raw
confidence is at or above the configured threshold (detections below it are
skipped before the text comparison) and the text comparison succeeds. -/
def is_candidate (confidence_threshold : ℚ) (target : List Char)
    (case_sensitive exact_match : Bool) (d : Detection) : Bool :=
  decide (confidence_threshold ≤ d.conf) &&
    text_match target case_sensitive exact_match d

/-- Embedding of the detection loop of OCRGrounding.locate: walk the
detections in detector output order carrying (best_match, best_confidence),
skipping detections below the confidence threshold, and replacing the best
when the detection matches the target and its confidence strictly exceeds the
best so far (best_confidence starts at 0). -/
def ocr_scan (confidence_threshold : ℚ) (target : List Char)
    (case_sensitive exact_match : Bool) :
    List Detection → Option Point → ℚ → Option Point × ℚ
  | [], best_match, best_confidence => (best_match, best_confidence)
  | d :: rest, best_match, best_confidence =>
    if d.conf < confidence_threshold then
      ocr_scan confidence_threshold target case_sensitive exact_match rest
        best_match best_confidence
    else
      if text_match target case_sensitive exact_match d &&
          decide (best_confidence < d.conf) then
        ocr_scan confidence_threshold target case_sensitive exact_match rest
          (some d.bbox.center) d.conf
      else
        ocr_scan confidence_threshold target case_sensitive exact_match rest
          best_match best_confidence

/-- Embedding of OCRGrounding.locate over one observed detector response: a
raised detector exception is caught and recorded as confidence -1 with no
point; otherwise the loop runs from (None, 0) and the best match, if any, is
returned with its confidence recorded (a best_match tuple is truthy in
Python, None is falsy); with no best match the confidence is 0 and no point
is returned.  Returns (new last_confidence, result). -/
def ocr_locate (confidence_threshold : ℚ)
    (readtext : Except String (List Detection))
    (target : List Char) (case_sensitive exact_match : Bool) :
    ℚ × Option Point :=
  match readtext with
  | .error _ => (-1, none)
  | .ok results =>
    let s := ocr_scan confidence_threshold target case_sensitive exact_match
      results none 0
    match s.1 with
    | some p => (s.2, some p)
    | none => (0, none)

/-- Helper: one step of the OCR loop, phrased through the candidate test. -/
theorem ocr_scan_cons (confidence_threshold : ℚ) (target : List Char)
    (case_sensitive exact_match : Bool) (d : Detection) (rest : List Detection)
    (bm : Option Point) (bc : ℚ) :
    ocr_scan confidence_threshold target case_sensitive exact_match
        (d :: rest) bm bc =
      if is_candidate confidence_threshold target case_sensitive exact_match d
          = true ∧ bc < d.conf then
        ocr_scan confidence_threshold target case_sensitive exact_match rest
          (some d.bbox.center) d.conf
      else
        ocr_scan confidence_threshold target case_sensitive exact_match rest
          bm bc := by
  by_cases h1 : d.conf < confidence_threshold
  · have hcand : is_candidate confidence_threshold target case_sensitive
        exact_match d = false := by
      simp [is_candidate, not_le.mpr h1]
    simp [ocr_scan, h1, hcand]
  · have hth : confidence_threshold ≤ d.conf := not_lt.mp h1
    by_cases hm : text_match target case_sensitive exact_match d = true <;>
      by_cases h2 : bc < d.conf <;>
        simp [ocr_scan, h1, hm, h2, is_candidate, hth]

/-- Helper: the best confidence of the OCR loop never decreases and ends at
or above the confidence of every candidate it processed. -/
theorem ocr_scan_conf_ge (confidence_threshold : ℚ) (target : List Char)
    (case_sensitive exact_match : Bool) :
    ∀ (results : List Detection) (bm : Option Point) (bc : ℚ),
      bc ≤ (ocr_scan confidence_threshold target case_sensitive exact_match
          results bm bc).2 ∧
      ∀ d ∈ results,
        is_candidate confidence_threshold target case_sensitive exact_match d
            = true →
        d.conf ≤ (ocr_scan confidence_threshold target case_sensitive
          exact_match results bm bc).2 := by
  intro results
  induction results with
  | nil => intro bm bc; simp [ocr_scan]
  | cons d rest ih =>
    intro bm bc
    rw [ocr_scan_cons]
    by_cases h : is_candidate confidence_threshold target case_sensitive
        exact_match d = true ∧ bc < d.conf
    · rw [if_pos h]
      rcases ih (some d.bbox.center) d.conf with ⟨h1, h2⟩
      refine ⟨le_trans (le_of_lt h.2) h1, ?_⟩
      intro e he hce
      rcases List.mem_cons.mp he with rfl | hrest
      · exact h1
      · exact h2 e hrest hce
    · rw [if_neg h]
      rcases ih bm bc with ⟨h1, h2⟩
      refine ⟨h1, ?_⟩
      intro e he hce
      rcases List.mem_cons.mp he with rfl | hrest
      · have hnot : ¬ bc < e.conf := fun hlt => h ⟨hce, hlt⟩
        exact le_trans (not_lt.mp hnot) h1
      · exact h2 e hrest hce

/-- Helper: the OCR loop either leaves the accumulator untouched or ends on a
candidate whose confidence strictly exceeds the start value and every earlier
candidate, and is not exceeded by any later one. -/
theorem ocr_scan_provenance (confidence_threshold : ℚ) (target : List Char)
    (case_sensitive exact_match : Bool) :
    ∀ (results : List Detection) (bm : Option Point) (bc : ℚ),
      ocr_scan confidence_threshold target case_sensitive exact_match results
          bm bc = (bm, bc) ∨
      ∃ pre d post, results = pre ++ d :: post ∧
        is_candidate confidence_threshold target case_sensitive exact_match d
            = true ∧
        ocr_scan confidence_threshold target case_sensitive exact_match
            results bm bc = (some d.bbox.center, d.conf) ∧
        bc < d.conf ∧
        (∀ e ∈ pre,
          is_candidate confidence_threshold target case_sensitive exact_match e
              = true → e.conf < d.conf) ∧
        (∀ e ∈ post,
          is_candidate confidence_threshold target case_sensitive exact_match e
              = true → e.conf ≤ d.conf) := by
  intro results
  induction results with
  | nil => intro bm bc; left; simp [ocr_scan]
  | cons d rest ih =>
    intro bm bc
    rw [ocr_scan_cons]
    by_cases h : is_candidate confidence_threshold target case_sensitive
        exact_match d = true ∧ bc < d.conf
    · rw [if_pos h]
      rcases ih (some d.bbox.center) d.conf with heq |
        ⟨pre, e, post, hres, hce, heq, hlt, hpre, hpost⟩
      · right
        refine ⟨[], d, rest, rfl, h.1, heq, h.2, by simp, ?_⟩
        intro e he hce
        have hle := (ocr_scan_conf_ge confidence_threshold target
          case_sensitive exact_match rest (some d.bbox.center) d.conf).2
          e he hce
        rw [heq] at hle
        exact hle
      · right
        refine ⟨d :: pre, e, post, by simp [hres], hce, heq,
          lt_trans h.2 hlt, ?_, hpost⟩
        intro u hu hcu
        rcases List.mem_cons.mp hu with rfl | hup
        · exact hlt
        · exact hpre u hup hcu
    · rw [if_neg h]
      rcases ih bm bc with heq |
        ⟨pre, e, post, hres, hce, heq, hlt, hpre, hpost⟩
      · left; exact heq
      · right
        refine ⟨d :: pre, e, post, by simp [hres], hce, heq, hlt, ?_, hpost⟩
        intro u hu hcu
        rcases List.mem_cons.mp hu with rfl | hup
        · have hnot : ¬ bc < u.conf := fun hl => h ⟨hcu, hl⟩
          exact lt_of_le_of_lt (not_lt.mp hnot) hlt
        · exact hpre u hup hcu

/-- C8: when the detector responds normally and the configured confidence
threshold is positive, a detection is a candidate iff it is at or above the
threshold and its normalized text matches the target (equality in exact mode,
target-substring-of-detected in the default partial mode); any returned point
is the truncated-mean center of a candidate whose raw confidence strictly
exceeds every earlier candidate (ties keep the first encountered) and is not
exceeded by any later candidate, the recorded confidence is that candidate's
raw confidence, and whenever at least one candidate exists a point is
returned. -/
theorem ocr_candidate_selection (confidence_threshold : ℚ) (target : List Char)
    (case_sensitive exact_match : Bool) (results : List Detection)
    (hthr : 0 < confidence_threshold) :
    (∀ (p : Point) (c : ℚ),
        ocr_locate confidence_threshold (.ok results) target case_sensitive
            exact_match = (c, some p) →
        ∃ pre d post, results = pre ++ d :: post ∧
          is_candidate confidence_threshold target case_sensitive exact_match d
              = true ∧
          p = d.bbox.center ∧ c = d.conf ∧
          (∀ e ∈ pre,
            is_candidate confidence_threshold target case_sensitive exact_match
                e = true → e.conf < d.conf) ∧
          (∀ e ∈ post,
            is_candidate confidence_threshold target case_sensitive exact_match
                e = true → e.conf ≤ d.conf)) ∧
    ((∃ d ∈ results,
        is_candidate confidence_threshold target case_sensitive exact_match d
            = true) →
      (ocr_locate confidence_threshold (.ok results) target case_sensitive
          exact_match).2.isSome = true) := by
  constructor
  · intro p c h
    rcases ocr_scan_provenance confidence_threshold target case_sensitive
        exact_match results none 0 with heq |
      ⟨pre, d, post, hres, hce, heq, _, hpre, hpost⟩
    · simp [ocr_locate, heq] at h
    · rw [ocr_locate] at h
      simp only [heq, Prod.mk.injEq, Option.some.injEq] at h
      exact ⟨pre, d, post, hres, hce, h.2.symm, h.1.symm, hpre, hpost⟩
  · intro ⟨d, hd, hcd⟩
    rcases ocr_scan_provenance confidence_threshold target case_sensitive
        exact_match results none 0 with heq |
      ⟨pre, e, post, hres, hce, heq, _, hpre, hpost⟩
    · exfalso
      have hle := (ocr_scan_conf_ge confidence_threshold target case_sensitive
        exact_match results none 0).2 d hd hcd
      rw [heq] at hle
      simp only at hle
      have : confidence_threshold ≤ d.conf := by
        have := (Bool.and_eq_true _ _).mp hcd
        simpa using this.1
      linarith
    · simp [ocr_locate, heq]

/-- Concrete bounding box for the OCR witnesses. -/
def wit_box : OCRBox := ⟨(0, 0), (2, 0), (2, 2), (0, 2)⟩

/-- Concrete detector output for the OCR witnesses: a non-matching detection
with higher confidence followed by a matching one. -/
def wit_results : List Detection :=
  [⟨wit_box, "File".toList, 2⟩, ⟨wit_box, "Save As".toList, 1⟩]

/-- Witness for C8: on the concrete detector output, the target "save" in
partial case-insensitive mode has a candidate, so a point is returned. -/
theorem ocr_candidate_selection_witness :
    (ocr_locate 1 (.ok wit_results) "save".toList false false).2.isSome
      = true :=
  (ocr_candidate_selection 1 "save".toList false false wit_results
    (by decide)).2 (by decide)

/-! ## Fuzzy OCR strategy (FuzzyOCRGrounding) -/

/-- Embedding of FuzzyOCRGrounding._fuzzy_match: when a sequence matcher is
available it is applied to the lowercased texts (its ratio is the similarity);
otherwise the degraded fallback returns 0.9 when either lowercased text
contains the other and 0 otherwise. -/
def fuzzy_match (matcher : Option (List Char → List Char → ℚ))
    (text1 text2 : List Char) : ℚ :=
  match matcher with
  | some m => m (lower_chars text1) (lower_chars text2)
  | none =>
    let t1 := lower_chars text1
    let t2 := lower_chars text2
    if contains_sub t2 t1 || contains_sub t1 t2 then 9/10 else 0

/-- The similarity FuzzyOCRGrounding.locate computes for one detection:
_fuzzy_match applied to the stripped detected text and stripped target. -/
def fuzzy_similarity (matcher : Option (List Char → List Char → ℚ))
    (target : List Char) (d : Detection) : ℚ :=
  fuzzy_match matcher (strip_chars d.text) (strip_chars target)

/-- The fusion score of one detection: detector raw confidence times
similarity. -/
def combined_score (matcher : Option (List Char → List Char → ℚ))
    (target : List Char) (d : Detection) : ℚ :=
  d.conf * fuzzy_similarity matcher target d

/-- A detection qualifies for fuzzy selection iff its raw confidence is at or
above the confidence threshold (below it the loop skips the detection) and
its similarity is at or above the fuzzy threshold. -/
def fuzzy_qualifies (confidence_threshold fuzzy_threshold : ℚ)
    (matcher : Option (List Char → List Char → ℚ)) (target : List Char)
    (d : Detection) : Bool :=
  decide (confidence_threshold ≤ d.conf) &&
    decide (fuzzy_threshold ≤ fuzzy_similarity matcher target d)

/-- Embedding of the detection loop of FuzzyOCRGrounding.locate: walk the
detections carrying (best_match, best_score), skipping detections below the
confidence threshold, and replacing the best when the similarity is at or
above the fuzzy threshold and the combined score strictly exceeds the best so
far (best_score starts at 0). -/
def fuzzy_scan (confidence_threshold fuzzy_threshold : ℚ)
    (matcher : Option (List Char → List Char → ℚ)) (target : List Char) :
    List Detection → Option Point → ℚ → Option Point × ℚ
  | [], best_match, best_score => (best_match, best_score)
  | d :: rest, best_match, best_score =>
    if d.conf < confidence_threshold then
      fuzzy_scan confidence_threshold fuzzy_threshold matcher target rest
        best_match best_score
    else
      if fuzzy_threshold ≤ fuzzy_similarity matcher target d ∧
          best_score < combined_score matcher target d then
        fuzzy_scan confidence_threshold fuzzy_threshold matcher target rest
          (some d.bbox.center) (combined_score matcher target d)
      else
        fuzzy_scan confidence_threshold fuzzy_threshold matcher target rest
          best_match best_score

/-- Embedding of FuzzyOCRGrounding.locate over one observed detector
response.  Unlike every other strategy, the body has no exception handler: a
raised detector exception propagates to the caller (modelled by returning the
error), and last_confidence is then left unchanged.  On a normal response the
loop runs from (None, 0); a best match is returned with the combined score
recorded as last_confidence, otherwise the confidence is 0 and no point is
returned. -/
def fuzzy_locate (confidence_threshold fuzzy_threshold : ℚ)
    (matcher : Option (List Char → List Char → ℚ))
    (readtext : Except String (List Detection)) (target : List Char) :
    Except String (ℚ × Option Point) :=
  match readtext with
  | .error e => .error e
  | .ok results =>
    let s := fuzzy_scan confidence_threshold fuzzy_threshold matcher target
      results none 0
    match s.1 with
    | some p => .ok (s.2, some p)
    | none => .ok (0, none)

/-- The value of last_confidence after a FuzzyOCRGrounding.locate call: the
recorded confidence on a normal return, the previous value when the call
raised (the assignment was never reached). -/
def fuzzy_new_confidence (confidence_threshold fuzzy_threshold : ℚ)
    (matcher : Option (List Char → List Char → ℚ))
    (readtext : Except String (List Detection)) (target : List Char)
    (last_confidence : ℚ) : ℚ :=
  match fuzzy_locate confidence_threshold fuzzy_threshold matcher readtext
      target with
  | .ok s => s.1
  | .error _ => last_confidence

/-- Helper: one step of the fuzzy loop, phrased through the qualification
test. -/
theorem fuzzy_scan_cons (confidence_threshold fuzzy_threshold : ℚ)
    (matcher : Option (List Char → List Char → ℚ)) (target : List Char)
    (d : Detection) (rest : List Detection) (bm : Option Point) (bs : ℚ) :
    fuzzy_scan confidence_threshold fuzzy_threshold matcher target (d :: rest)
        bm bs =
      if fuzzy_qualifies confidence_threshold fuzzy_threshold matcher target d
          = true ∧ bs < combined_score matcher target d then
        fuzzy_scan confidence_threshold fuzzy_threshold matcher target rest
          (some d.bbox.center) (combined_score matcher target d)
      else
        fuzzy_scan confidence_threshold fuzzy_threshold matcher target rest
          bm bs := by
  by_cases h1 : d.conf < confidence_threshold
  · have hq : fuzzy_qualifies confidence_threshold fuzzy_threshold matcher
        target d = false := by
      simp [fuzzy_qualifies, not_le.mpr h1]
    simp [fuzzy_scan, h1, hq]
  · have hth : confidence_threshold ≤ d.conf := not_lt.mp h1
    by_cases h2 : fuzzy_threshold ≤ fuzzy_similarity matcher target d <;>
      by_cases h3 : bs < combined_score matcher target d <;>
        simp [fuzzy_scan, h1, h2, h3, fuzzy_qualifies, hth]

/-- Helper: the best combined score of the fuzzy loop never decreases and
ends at or above the combined score of every qualifying detection it
processed. -/
theorem fuzzy_scan_score_ge (confidence_threshold fuzzy_threshold : ℚ)
    (matcher : Option (List Char → List Char → ℚ)) (target : List Char) :
    ∀ (results : List Detection) (bm : Option Point) (bs : ℚ),
      bs ≤ (fuzzy_scan confidence_threshold fuzzy_threshold matcher target
          results bm bs).2 ∧
      ∀ d ∈ results,
        fuzzy_qualifies confidence_threshold fuzzy_threshold matcher target d
            = true →
        combined_score matcher target d ≤
          (fuzzy_scan confidence_threshold fuzzy_threshold matcher target
            results bm bs).2 := by
  intro results
  induction results with
  | nil => intro bm bs; simp [fuzzy_scan]
  | cons d rest ih =>
    intro bm bs
    rw [fuzzy_scan_cons]
    by_cases h : fuzzy_qualifies confidence_threshold fuzzy_threshold matcher
        target d = true ∧ bs < combined_score matcher target d
    · rw [if_pos h]
      rcases ih (some d.bbox.center) (combined_score matcher target d) with
        ⟨h1, h2⟩
      refine ⟨le_trans (le_of_lt h.2) h1, ?_⟩
      intro e he hce
      rcases List.mem_cons.mp he with rfl | hrest
      · exact h1
      · exact h2 e hrest hce
    · rw [if_neg h]
      rcases ih bm bs with ⟨h1, h2⟩
      refine ⟨h1, ?_⟩
      intro e he hce
      rcases List.mem_cons.mp he with rfl | hrest
      · have hnot : ¬ bs < combined_score matcher target e :=
          fun hlt => h ⟨hce, hlt⟩
        exact le_trans (not_lt.mp hnot) h1
      · exact h2 e hrest hce

/-- Helper: the fuzzy loop either leaves the accumulator untouched or ends on
a qualifying detection whose combined score strictly exceeds the start value
and that of every earlier qualifying detection, and is not exceeded by any
later one. -/
theorem fuzzy_scan_provenance (confidence_threshold fuzzy_threshold : ℚ)
    (matcher : Option (List Char → List Char → ℚ)) (target : List Char) :
    ∀ (results : List Detection) (bm : Option Point) (bs : ℚ),
      fuzzy_scan confidence_threshold fuzzy_threshold matcher target results
          bm bs = (bm, bs) ∨
      ∃ pre d post, results = pre ++ d :: post ∧
        fuzzy_qualifies confidence_threshold fuzzy_threshold matcher target d
            = true ∧
        fuzzy_scan confidence_threshold fuzzy_threshold matcher target results
            bm bs = (some d.bbox.center, combined_score matcher target d) ∧
        bs < combined_score matcher target d ∧
        (∀ e ∈ pre,
          fuzzy_qualifies confidence_threshold fuzzy_threshold matcher target e
              = true →
          combined_score matcher target e < combined_score matcher target d) ∧
        (∀ e ∈ post,
          fuzzy_qualifies confidence_threshold fuzzy_threshold matcher target e
              = true →
          combined_score matcher target e ≤ combined_score matcher target d) := by
  intro results
  induction results with
  | nil => intro bm bs; left; simp [fuzzy_scan]
  | cons d rest ih =>
    intro bm bs
    rw [fuzzy_scan_cons]
    by_cases h : fuzzy_qualifies confidence_threshold fuzzy_threshold matcher
        target d = true ∧ bs < combined_score matcher target d
    · rw [if_pos h]
      rcases ih (some d.bbox.center) (combined_score matcher target d) with
        heq | ⟨pre, e, post, hres, hce, heq, hlt, hpre, hpost⟩
      · right
        refine ⟨[], d, rest, rfl, h.1, heq, h.2, by simp, ?_⟩
        intro e he hce
        have hle := (fuzzy_scan_score_ge confidence_threshold fuzzy_threshold
          matcher target rest (some d.bbox.center)
          (combined_score matcher target d)).2 e he hce
        rw [heq] at hle
        exact hle
      · right
        refine ⟨d :: pre, e, post, by simp [hres], hce, heq,
          lt_trans h.2 hlt, ?_, hpost⟩
        intro u hu hcu
        rcases List.mem_cons.mp hu with rfl | hup
        · exact hlt
        · exact hpre u hup hcu
    · rw [if_neg h]
      rcases ih bm bs with heq |
        ⟨pre, e, post, hres, hce, heq, hlt, hpre, hpost⟩
      · left; exact heq
      · right
        refine ⟨d :: pre, e, post, by simp [hres], hce, heq, hlt, ?_, hpost⟩
        intro u hu hcu
        rcases List.mem_cons.mp hu with rfl | hup
        · have hnot : ¬ bs < combined_score matcher target u :=
            fun hl => h ⟨hcu, hl⟩
          exact lt_of_le_of_lt (not_lt.mp hnot) hlt
        · exact hpre u hup hcu

/-- C7: with positive thresholds and a normal detector response, a detection
qualifies iff its raw confidence is at or above the confidence threshold and
its similarity to the target (the sequence matcher ratio, or the 0.9/0
substring fallback, both over stripped lowercased texts) is at or above the
fuzzy threshold; any returned point is the center of a qualifying detection
whose combined score (raw confidence times similarity) is maximal among
qualifying detections — so a detection below the similarity threshold is
never selected even when its raw confidence is the highest — and whenever a
qualifying detection exists, a point is returned. -/
theorem fuzzy_threshold_gate_selection (confidence_threshold fuzzy_threshold : ℚ)
    (matcher : Option (List Char → List Char → ℚ)) (target : List Char)
    (results : List Detection) (hc : 0 < confidence_threshold)
    (hf : 0 < fuzzy_threshold) :
    (∀ (p : Point) (c : ℚ),
        fuzzy_locate confidence_threshold fuzzy_threshold matcher (.ok results)
            target = .ok (c, some p) →
        ∃ pre d post, results = pre ++ d :: post ∧
          fuzzy_qualifies confidence_threshold fuzzy_threshold matcher target d
              = true ∧
          p = d.bbox.center ∧ c = combined_score matcher target d ∧
          (∀ e ∈ pre,
            fuzzy_qualifies confidence_threshold fuzzy_threshold matcher target
                e = true →
            combined_score matcher target e < combined_score matcher target d) ∧
          (∀ e ∈ post,
            fuzzy_qualifies confidence_threshold fuzzy_threshold matcher target
                e = true →
            combined_score matcher target e ≤ combined_score matcher target d)) ∧
    ((∃ d ∈ results,
        fuzzy_qualifies confidence_threshold fuzzy_threshold matcher target d
            = true) →
      ∃ c p, fuzzy_locate confidence_threshold fuzzy_threshold matcher
          (.ok results) target = .ok (c, some p)) := by
  constructor
  · intro p c h
    rcases fuzzy_scan_provenance confidence_threshold fuzzy_threshold matcher
        target results none 0 with heq |
      ⟨pre, d, post, hres, hce, heq, _, hpre, hpost⟩
    · simp [fuzzy_locate, heq] at h
    · rw [fuzzy_locate] at h
      simp only [heq, Except.ok.injEq, Prod.mk.injEq, Option.some.injEq] at h
      exact ⟨pre, d, post, hres, hce, h.2.symm, h.1.symm, hpre, hpost⟩
  · intro ⟨d, hd, hcd⟩
    rcases fuzzy_scan_provenance confidence_threshold fuzzy_threshold matcher
        target results none 0 with heq |
      ⟨pre, e, post, hres, hce, heq, _, hpre, hpost⟩
    · exfalso
      have hle := (fuzzy_scan_score_ge confidence_threshold fuzzy_threshold
        matcher target results none 0).2 d hd hcd
      rw [heq] at hle
      simp only at hle
      have hq := (Bool.and_eq_true _ _).mp hcd
      have h1 : confidence_threshold ≤ d.conf := by simpa using hq.1
      have h2 : fuzzy_threshold ≤ fuzzy_similarity matcher target d := by
        simpa using hq.2
      have hpos : 0 < combined_score matcher target d :=
        mul_pos (lt_of_lt_of_le hc h1) (lt_of_lt_of_le hf h2)
      linarith
    · exact ⟨combined_score matcher target e, e.bbox.center,
        by simp [fuzzy_locate, heq]⟩

/-- A synthetic similarity ratio for the C7 witness: 1 on equal lowercased
texts, 0 otherwise. -/
def wit_sim (a b : List Char) : ℚ := if a = b then 1 else 0

/-- Concrete detector output for the C7 witness: a corrupted reading with the
higher raw confidence followed by the exact reading. -/
def wit_fuzzy_results : List Detection :=
  [⟨wit_box, "S4ve".toList, 2⟩, ⟨wit_box, "Save".toList, 1⟩]

/-- Witness for C7: with the synthetic ratio the corrupted reading has
similarity 0 (below the threshold) and only the exact reading qualifies, so a
point is returned. -/
theorem fuzzy_threshold_gate_selection_witness :
    ∃ c p, fuzzy_locate 1 1 (some wit_sim) (.ok wit_fuzzy_results)
        "Save".toList = .ok (c, some p) :=
  (fuzzy_threshold_gate_selection 1 1 (some wit_sim) "Save".toList
    wit_fuzzy_results (by decide) (by decide)).2 (by decide)

/-! ## Vision strategy (VisionModelGrounding) -/

/-- A Florence-2 bounding box: [x_min, y_min, x_max, y_max]. -/
structure VisionBox where
  xmin : ℚ
  ymin : ℚ
  xmax : ℚ
  ymax : ℚ
deriving DecidableEq

/-- One observed response of the vision pipeline inside
VisionModelGrounding.locate: a raised exception anywhere in the pipeline, a
parsed answer without the task key, or the (possibly empty) bbox list of the
parsed answer. -/
inductive VisionParse where
  | raises (msg : String)
  | missingTask
  | detections (bboxes : List VisionBox)
deriving DecidableEq

/-- Embedding of VisionModelGrounding.locate: an exception is caught and
recorded as confidence -1 with no point; a malformed answer or an empty bbox
list records confidence 0 with no point; otherwise the center of the first
bbox is returned and the confidence is set to the fixed 0.9 (Florence-2
exposes no scores).  Returns (new last_confidence, result). -/
def vision_locate : VisionParse → ℚ × Option Point
  | .raises _ => (-1, none)
  | .missingTask => (0, none)
  | .detections [] => (0, none)
  | .detections (b :: _) =>
    (9/10, some (py_int ((b.xmin + b.xmax) / 2), py_int ((b.ymin + b.ymax) / 2)))

/-! ## C3: exception handling of the strategy variants -/

/-- C3 counterexample: the Fuzzy OCR strategy does not catch detector
exceptions.  Concrete input: the detector raises "reader crashed" while
locating "Save" (no matcher, thresholds 0.6 and 0.8, previous confidence
0.5); fuzzy locate propagates the error to its caller instead of returning no
point, and the confidence is left at 0.5 instead of being set to -1. -/
theorem fuzzy_exception_propagates_counterexample :
    fuzzy_locate (6/10) (8/10) none (Except.error "reader crashed")
        "Save".toList = Except.error "reader crashed" ∧
    fuzzy_new_confidence (6/10) (8/10) none (Except.error "reader crashed")
        "Save".toList (1/2) = 1/2 :=
  ⟨rfl, rfl⟩

/-- Helper: the adaptive ladder over an always-raising matcher records -1 and
returns no point after one attempt per rung. -/
theorem adaptive_locate_raises (self_threshold : ℚ) (msg : String) :
    ∀ (thresholds : List ℚ) (last : ℚ), thresholds ≠ [] →
      adaptive_locate self_threshold (fun _ => FindOutcome.raises msg) last
          thresholds = (-1, none, thresholds.length) := by
  intro thresholds
  induction thresholds with
  | nil => intro last h; exact absurd rfl h
  | cons t rest ih =>
    intro last _
    have hstep : template_locate self_threshold
        (fun _ => FindOutcome.raises msg) (some t) = (-1, none) := rfl
    have hrm : rung_matches self_threshold
        (fun _ => FindOutcome.raises msg) t = false := by
      simp [rung_matches, hstep]
    rw [adaptive_locate_step_fail self_threshold
      (fun _ => FindOutcome.raises msg) last t rest hrm]
    have h1 : (template_locate self_threshold
        (fun _ => FindOutcome.raises msg) (some t)).1 = (-1 : ℚ) := by
      rw [hstep]
    rw [h1]
    cases hr : rest with
    | nil => simp [adaptive_locate]
    | cons u us =>
      have hrec := ih (-1) (by simp [hr])
      rw [hr] at hrec
      rw [hrec]
      simp

/-- C3 (amended): for the Template, Adaptive Template, OCR and Vision
strategies, an exception raised by the detection primitive during locate is
caught inside locate, the confidence is set to exactly -1, and no point is
returned.  The Fuzzy OCR strategy is the exception: its locate has no
exception handler, so a detector exception propagates to the caller and the
confidence keeps its previous value. -/
theorem strategy_error_containment :
    (∀ (msg : String) (self_threshold : ℚ) (threshold : Option ℚ),
        template_locate self_threshold (fun _ => FindOutcome.raises msg)
          threshold = (-1, none)) ∧
    (∀ (msg : String) (self_threshold last : ℚ) (thresholds : List ℚ),
        thresholds ≠ [] →
        adaptive_locate self_threshold (fun _ => FindOutcome.raises msg) last
          thresholds = (-1, none, thresholds.length)) ∧
    (∀ (msg : String) (confidence_threshold : ℚ) (target : List Char)
        (case_sensitive exact_match : Bool),
        ocr_locate confidence_threshold (.error msg) target case_sensitive
          exact_match = (-1, none)) ∧
    (∀ msg : String, vision_locate (.raises msg) = (-1, none)) ∧
    (∀ (msg : String) (confidence_threshold fuzzy_threshold : ℚ)
        (matcher : Option (List Char → List Char → ℚ)) (target : List Char)
        (last_confidence : ℚ),
        fuzzy_locate confidence_threshold fuzzy_threshold matcher (.error msg)
            target = .error msg ∧
        fuzzy_new_confidence confidence_threshold fuzzy_threshold matcher
            (.error msg) target last_confidence = last_confidence) := by
  refine ⟨fun msg s t => rfl, ?_, fun msg c t cs em => rfl, fun msg => rfl,
    fun msg c f m t l => ⟨rfl, rfl⟩⟩
  intro msg self_threshold last thresholds h
  exact adaptive_locate_raises self_threshold msg thresholds last h

/-- Witness for C3 (amended): the adaptive ladder [1, 1] over an
always-raising matcher ends with confidence -1, no point, after 2 attempts. -/
theorem strategy_error_containment_witness :
    adaptive_locate 1 (fun _ => FindOutcome.raises "down") 0 [1, 1] =
      (-1, none, 2) :=
  strategy_error_containment.2.1 "down" 1 0 [1, 1] (by decide)

/-! ## C4: the confidence domain invariant -/

/-- The legal confidence values: exactly -1, exactly 0, or in (0, 1]. -/
def ConfDomain (c : ℚ) : Prop := c = -1 ∨ c = 0 ∨ (0 < c ∧ c ≤ 1)

/-- The value of last_confidence set by every strategy constructor, before
any locate call. -/
def initial_last_confidence : ℚ := -1

/-- Helper: every value of [0, 1] is a legal confidence. -/
theorem confDomain_of_unit (c : ℚ) (h0 : 0 ≤ c) (h1 : c ≤ 1) : ConfDomain c := by
  rcases eq_or_lt_of_le h0 with h | h
  · right; left; exact h.symm
  · right; right; exact ⟨h, h1⟩

/-- Helper: the OCR confidence after a normal detector response is legal
whenever the raw detector confidences are in [0, 1]. -/
theorem ocr_ok_conf_domain (confidence_threshold : ℚ) (target : List Char)
    (case_sensitive exact_match : Bool) (results : List Detection)
    (hconf : ∀ d ∈ results, 0 ≤ d.conf ∧ d.conf ≤ 1) :
    ConfDomain (ocr_locate confidence_threshold (.ok results) target
      case_sensitive exact_match).1 := by
  rcases ocr_scan_provenance confidence_threshold target case_sensitive
      exact_match results none 0 with heq |
    ⟨pre, d, post, hres, hce, heq, hlt, _, _⟩
  · right; left; simp [ocr_locate, heq]
  · have hd : d ∈ results := by simp [hres]
    have hval : (ocr_locate confidence_threshold (.ok results) target
        case_sensitive exact_match).1 = d.conf := by
      simp [ocr_locate, heq]
    rw [hval]
    right; right
    exact ⟨by simpa using hlt, (hconf d hd).2⟩

/-- Helper: the fuzzy confidence after a normal detector response is legal
whenever the raw detector confidences and the similarities are in [0, 1]. -/
theorem fuzzy_ok_conf_domain (confidence_threshold fuzzy_threshold : ℚ)
    (matcher : Option (List Char → List Char → ℚ)) (target : List Char)
    (results : List Detection) (last : ℚ)
    (hconf : ∀ d ∈ results, 0 ≤ d.conf ∧ d.conf ≤ 1)
    (hsim : ∀ d ∈ results, 0 ≤ fuzzy_similarity matcher target d ∧
      fuzzy_similarity matcher target d ≤ 1) :
    ConfDomain (fuzzy_new_confidence confidence_threshold fuzzy_threshold
      matcher (.ok results) target last) := by
  rcases fuzzy_scan_provenance confidence_threshold fuzzy_threshold matcher
      target results none 0 with heq |
    ⟨pre, d, post, hres, hce, heq, hlt, _, _⟩
  · right; left; simp [fuzzy_new_confidence, fuzzy_locate, heq]
  · have hd : d ∈ results := by simp [hres]
    have hval : fuzzy_new_confidence confidence_threshold fuzzy_threshold
        matcher (.ok results) target last =
        combined_score matcher target d := by
      simp [fuzzy_new_confidence, fuzzy_locate, heq]
    rw [hval]
    right; right
    refine ⟨by simpa using hlt, ?_⟩
    calc combined_score matcher target d
        = d.conf * fuzzy_similarity matcher target d := rfl
      _ ≤ 1 * 1 := by
          exact mul_le_mul (hconf d hd).2 (hsim d hd).2 (hsim d hd).1
            zero_le_one
      _ = 1 := by norm_num

/-- Helper: the template confidence is legal whenever the effective threshold
and any exposed matcher score are in [0, 1]. -/
theorem template_conf_domain (self_threshold : ℚ) (find : ℚ → FindOutcome)
    (threshold : Option ℚ)
    (h0 : 0 ≤ py_or_threshold threshold self_threshold)
    (h1 : py_or_threshold threshold self_threshold ≤ 1)
    (hscore : ∀ e, find (py_or_threshold threshold self_threshold) =
        FindOutcome.found e →
      (match e.score with
       | none => True
       | some s => 0 ≤ s ∧ s ≤ 1)) :
    ConfDomain (template_locate self_threshold find threshold).1 := by
  cases hf : find (py_or_threshold threshold self_threshold) with
  | raises msg => left; simp [template_locate, hf]
  | notFound => right; left; simp [template_locate, hf]
  | found e =>
    have hs := hscore e hf
    cases hsc : e.score with
    | none =>
      have hval : (template_locate self_threshold find threshold).1 =
          py_or_threshold threshold self_threshold := by
        simp [template_locate, hf, hsc]
      rw [hval]
      exact confDomain_of_unit _ h0 h1
    | some s =>
      rw [hsc] at hs
      have hval : (template_locate self_threshold find threshold).1 = s := by
        simp [template_locate, hf, hsc]
      rw [hval]
      exact confDomain_of_unit _ hs.1 hs.2

/-- Helper: the adaptive confidence is legal whenever the previous confidence
is and every rung satisfies the template-side conditions. -/
theorem adaptive_conf_domain (self_threshold : ℚ) (find : ℚ → FindOutcome) :
    ∀ (thresholds : List ℚ) (last : ℚ), ConfDomain last →
      (∀ t ∈ thresholds, 0 ≤ py_or_threshold (some t) self_threshold ∧
        py_or_threshold (some t) self_threshold ≤ 1) →
      (∀ t ∈ thresholds, ∀ e,
        find (py_or_threshold (some t) self_threshold) =
            FindOutcome.found e →
        (match e.score with
         | none => True
         | some s => 0 ≤ s ∧ s ≤ 1)) →
      ConfDomain (adaptive_locate self_threshold find last thresholds).1 := by
  intro thresholds
  induction thresholds with
  | nil => intro last hlast _ _; simpa [adaptive_locate] using hlast
  | cons t rest ih =>
    intro last hlast hthr hscore
    have htempl : ConfDomain (template_locate self_threshold find (some t)).1 :=
      template_conf_domain self_threshold find (some t)
        (hthr t (List.mem_cons_self t rest)).1
        (hthr t (List.mem_cons_self t rest)).2
        (hscore t (List.mem_cons_self t rest))
    cases hc : (template_locate self_threshold find (some t)).2 with
    | some p => simpa [adaptive_locate, hc] using htempl
    | none =>
      have hrec := ih ((template_locate self_threshold find (some t)).1)
        htempl (fun u hu => hthr u (List.mem_cons_of_mem t hu))
        (fun u hu => hscore u (List.mem_cons_of_mem t hu))
      simpa [adaptive_locate, hc] using hrec

/-- Helper: the vision confidence is always legal. -/
theorem vision_conf_domain : ∀ v : VisionParse, ConfDomain (vision_locate v).1 := by
  intro v
  cases v with
  | raises msg => left; rfl
  | missingTask => right; left; rfl
  | detections bs =>
    cases bs with
    | nil => right; left; rfl
    | cons b rest =>
      right; right
      exact ⟨by norm_num [vision_locate], by norm_num [vision_locate]⟩

/-- C4: for every strategy variant the confidence after a locate call is
exactly -1, exactly 0, or in (0, 1] — given that the primitive reports raw
confidences, scores and similarity ratios in [0, 1] and that the configured
thresholds lie in [0, 1] — and before any locate call it is the constructor
sentinel -1.  For Fuzzy OCR the invariant also holds across a propagated
detector exception, which leaves the previous (legal) value in place. -/
theorem strategy_confidence_domain :
    initial_last_confidence = -1 ∧
    (∀ (confidence_threshold : ℚ) (target : List Char)
        (case_sensitive exact_match : Bool) (results : List Detection),
        (∀ d ∈ results, 0 ≤ d.conf ∧ d.conf ≤ 1) →
        ConfDomain (ocr_locate confidence_threshold (.ok results) target
          case_sensitive exact_match).1) ∧
    (∀ (confidence_threshold : ℚ) (msg : String) (target : List Char)
        (case_sensitive exact_match : Bool),
        ConfDomain (ocr_locate confidence_threshold (.error msg) target
          case_sensitive exact_match).1) ∧
    (∀ (confidence_threshold fuzzy_threshold : ℚ)
        (matcher : Option (List Char → List Char → ℚ)) (target : List Char)
        (results : List Detection) (last : ℚ),
        (∀ d ∈ results, 0 ≤ d.conf ∧ d.conf ≤ 1) →
        (∀ d ∈ results, 0 ≤ fuzzy_similarity matcher target d ∧
          fuzzy_similarity matcher target d ≤ 1) →
        ConfDomain (fuzzy_new_confidence confidence_threshold fuzzy_threshold
          matcher (.ok results) target last)) ∧
    (∀ (confidence_threshold fuzzy_threshold : ℚ)
        (matcher : Option (List Char → List Char → ℚ)) (target : List Char)
        (msg : String) (last : ℚ), ConfDomain last →
        ConfDomain (fuzzy_new_confidence confidence_threshold fuzzy_threshold
          matcher (.error msg) target last)) ∧
    (∀ (self_threshold : ℚ) (find : ℚ → FindOutcome) (threshold : Option ℚ),
        0 ≤ py_or_threshold threshold self_threshold →
        py_or_threshold threshold self_threshold ≤ 1 →
        (∀ e, find (py_or_threshold threshold self_threshold) =
            FindOutcome.found e →
          (match e.score with
           | none => True
           | some s => 0 ≤ s ∧ s ≤ 1)) →
        ConfDomain (template_locate self_threshold find threshold).1) ∧
    (∀ (self_threshold : ℚ) (find : ℚ → FindOutcome) (last : ℚ)
        (thresholds : List ℚ), ConfDomain last →
        (∀ t ∈ thresholds, 0 ≤ py_or_threshold (some t) self_threshold ∧
          py_or_threshold (some t) self_threshold ≤ 1) →
        (∀ t ∈ thresholds, ∀ e,
          find (py_or_threshold (some t) self_threshold) =
              FindOutcome.found e →
          (match e.score with
           | none => True
           | some s => 0 ≤ s ∧ s ≤ 1)) →
        ConfDomain (adaptive_locate self_threshold find last thresholds).1) ∧
    (∀ v : VisionParse, ConfDomain (vision_locate v).1) := by
  refine ⟨rfl, ?_, ?_, ?_, ?_, ?_, ?_, vision_conf_domain⟩
  · intro c t cs em results hconf
    exact ocr_ok_conf_domain c t cs em results hconf
  · intro c msg t cs em
    left; rfl
  · intro c f m t results last hconf hsim
    exact fuzzy_ok_conf_domain c f m t results last hconf hsim
  · intro c f m t msg last hlast
    exact hlast
  · intro s find th h0 h1 hs
    exact template_conf_domain s find th h0 h1 hs
  · intro s find last thresholds hlast hthr hscore
    exact adaptive_conf_domain s find thresholds last hlast hthr hscore

/-- Concrete detector output for the C4 witness, with a confidence inside
[0, 1]. -/
def wit_unit_results : List Detection := [⟨wit_box, "Save".toList, 1⟩]

/-- Witness for C4 on concrete runs: an OCR call over a detector response
with confidence 1, and a template call whose matcher reports no match. -/
theorem strategy_confidence_domain_witness :
    ConfDomain (ocr_locate 1 (.ok wit_unit_results) "save".toList false
      false).1 ∧
    ConfDomain (template_locate 1 (fun _ => FindOutcome.notFound) none).1 :=
  ⟨strategy_confidence_domain.2.1 1 "save".toList false false
      wit_unit_results (by decide),
   strategy_confidence_domain.2.2.2.2.2.1 1 (fun _ => FindOutcome.notFound)
      none (by decide) (by decide) (fun e h => nomatch h)⟩

end IconGrounding
